import Mathlib

/-
Shallow embedding of the tiny teaching shell in src/tsh.cpp.

C strings are modelled as `List Char` (the buffer contents up to the NUL
terminator).  The C library routine `strtok` keeps a save pointer between
calls; within one function of the source every `strtok` sequence starts with
a fresh first call, so we model `strtok` by explicit passing of the
remaining-suffix state.  A crash (null-pointer dereference) is modelled with
`Option` / an explicit crash flag.
-/

set_option autoImplicit false

namespace Tsh

/-- A character is a delimiter when it occurs in the delimiter list, as in
the `strspn`/`strcspn` scans used by glibc `strtok`. -/
def isDelim (d : List Char) (c : Char) : Bool := d.contains c

/-- One `strtok(NULL, d)` call, acting on the remaining suffix `s` of the
tokenized buffer (the save pointer state).  Returns the token found (or
`none` when the scan reaches the terminating NUL) together with the new
remaining suffix, exactly following glibc `strtok_r`: skip leading
delimiters, take the maximal run of non-delimiters, and when that run is
stopped by a delimiter the save pointer moves past it. -/
def strtok_step (d : List Char) (s : List Char) : Option (List Char) × List Char :=
  let s1 := s.dropWhile (isDelim d)
  match s1 with
  | [] => (none, [])
  | _ :: _ =>
    let tok := s1.takeWhile (fun c => ! isDelim d c)
    let rest := s1.dropWhile (fun c => ! isDelim d c)
    match rest with
    | [] => (some tok, [])
    | _ :: r => (some tok, r)

/-- A first `strtok(buf, d)` call on a fresh buffer: same token as
`strtok_step`, but we also record how the buffer reads afterwards (as a C
string, i.e. up to the first NUL).  glibc writes a NUL over the delimiter
that stops the token, so the buffer then reads as its leading delimiters
followed by the token; when no delimiter stops the token the buffer is left
untouched. -/
def strtok_first (d : List Char) (s : List Char) : Option (List Char) × List Char :=
  let s1 := s.dropWhile (isDelim d)
  match s1 with
  | [] => (none, s)
  | _ :: _ =>
    let tok := s1.takeWhile (fun c => ! isDelim d c)
    let rest := s1.dropWhile (fun c => ! isDelim d c)
    match rest with
    | [] => (some tok, s)
    | _ :: _ => (some tok, s.takeWhile (isDelim d) ++ tok)

/-- The `Process` class of tsh.h.  `cmd` is a possibly-null C string
(`none` models a null `char *`).  `cmdTokens` is `none` while the
`char *cmdTokens[25]` array is uninitialized (the constructor never writes
it); `some` would record the written entries, each itself a possibly-null
`char *`. -/
structure Process where
  cmd : Option (List Char)
  cmdTokens : Option (List (Option (List Char)))
  pipe_in : Bool
  pipe_out : Bool
deriving Repr, DecidableEq

/-- The `Process::Process(char *_cmd, int _pipe_in, int _pipe_out)`
constructor: `strdup` the command, set the two pipe flags, leave
`cmdTokens` uninitialized. -/
def Process.mkC (c : List Char) (pin pout : Bool) : Process :=
  Process.mk (some c) none pin pout

/-- The body of `Process::split_string()` in the source is empty: the
method performs no action at all (`cmdTokens` is never written). -/
def Process.split_string (p : Process) : Process := p

/-- The delimiter set `"|;"` of `parse_input`. -/
def pipeDelims : List Char := ['|', ';']

/-- The literal `"quit"` compared against by `isQuit`. -/
def quitChars : List Char := ['q', 'u', 'i', 't']

/-- The `while (token != NULL)` loop of `parse_input`.  Each call handles
one iteration with the current token (known non-null by the loop guard),
the `strtok` save state `rem`, the running `pipe_in_val` and the list of
processes pushed so far.  The iteration computes
`next = strtok(NULL, "|;")`, then `pipe_out_val = (*strtok(NULL, "") == '|'
&& next) ? 1 : 0`; when that inner `strtok(NULL, "")` returns NULL the
dereference `*...` is a crash, modelled by returning the accumulated list
with the crash flag `true`.  The `fuel` argument only bounds the recursion
for Lean's termination checker; `parse_input` supplies more fuel than the
loop can ever consume. -/
def parse_loop : Nat → List Char → List Char → Bool → List Process → List Process × Bool
  | 0, _, _, _, acc => (acc, true)
  | Nat.succ fuel, token, rem, pipe_in_val, acc =>
    let next := (strtok_step pipeDelims rem).1
    let rem1 := (strtok_step pipeDelims rem).2
    let peek := (strtok_step [] rem1).1
    let rem2 := (strtok_step [] rem1).2
    match peek with
    | none => (acc, true)
    | some pk =>
      let pipe_out_val : Bool := (pk.headD ' ' == '|') && next.isSome
      let acc2 := acc ++ [Process.mkC token pipe_in_val pipe_out_val]
      match next with
      | none => (acc2, false)
      | some t => parse_loop fuel t rem2 pipe_out_val acc2

/-- `parse_input(cmd, process_list)`: tokenize `cmd_copy = strdup(cmd)`
on `"|;"` and run the loop above starting from `pipe_in_val = 0`; after a
normal loop exit, call `split_string` on every pushed process.  The result
is the final contents of `process_list` together with a crash flag (`true`
when the loop dereferenced the NULL returned by `strtok(NULL, "")`, in
which case the `split_string` loop is never reached). -/
def parse_input (cmd : List Char) : List Process × Bool :=
  let st := strtok_step pipeDelims cmd
  match st.1 with
  | none => ([], false)
  | some tok =>
    let res := parse_loop (cmd.length + 2) tok st.2 false []
    if res.2 then res else (res.1.map Process.split_string, false)

/-- `isQuit(Process *p)`: `none` argument models a null pointer.  The
function returns `(result, state of the argument afterwards)`; the result
is `none` when the call crashes (it calls `strcmp(cmd, "quit")` with
`cmd = strtok(p->cmd, "")`, which is NULL for an empty command string).
`strtok(p->cmd, "")` can in general write into `p->cmd`, so the returned
state threads the buffer produced by `strtok_first`. -/
def isQuit (parg : Option Process) : Option Bool × Option Process :=
  match parg with
  | none => (some false, none)
  | some p =>
    match p.cmd with
    | none => (some false, some p)
    | some s =>
      let tk := (strtok_first [] s).1
      let s2 := (strtok_first [] s).2
      let p2 := Process.mk (some s2) p.cmdTokens p.pipe_in p.pipe_out
      match tk with
      | none => (none, some p2)
      | some t => (some (decide (t = quitChars)), some p2)

/-- Events executed by the shell (parent) process during `run_commands`.
Children are replaced by `execvp` and never run shell code, so only the
parent's actions are traced.  `pipeCreate i rd wr` is the parent's
`pipe(fd)` call in iteration `i` (the kernel hands the parent the lowest
free descriptors: with 0,1,2 taken by stdio and nothing ever closed these
are `3 + 2 i` and `4 + 2 i`); `closeFd v` is a `close(v)` call; `wait i`
is the `wait(&pid)` call of iteration `i`. -/
inductive Ev : Type where
  | fork : Nat → Ev
  | pipeCreate : Nat → Int → Int → Ev
  | closeFd : Int → Ev
  | wait : Nat → Ev
deriving Repr, DecidableEq

/-- The loop of `run_commands`, tracing the parent.  `g0`/`g1` are the
contents of the uninitialized `int prev_fd[2]` (stack garbage: the code
never assigns `prev_fd`, so every `close(prev_fd[0])`/`close(prev_fd[1])`
closes these two unknown values); `i` is the iteration index, `prevSet`
says whether `prev` is non-null yet.  Per iteration the code: calls
`isQuit(p)` (break on quit, crash propagated); calls `fork()` then
`pipe(fd)` (both assumed to succeed, else `exit(1)`); in the parent branch
closes `prev_fd[0]`/`prev_fd[1]` when `prev` is set, then waits. -/
def run_loop (g0 g1 : Int) : List Process → Nat → Bool → List Ev → Option (Bool × List Ev)
  | [], _, _, acc => some (false, acc)
  | p :: rest, i, prevSet, acc =>
    match (isQuit (some p)).1 with
    | none => none
    | some true => some (true, acc)
    | some false =>
      let acc1 := acc ++ [Ev.fork i, Ev.pipeCreate i (3 + 2 * (i : Int)) (4 + 2 * (i : Int))]
      let acc2 := if prevSet then acc1 ++ [Ev.closeFd g0, Ev.closeFd g1] else acc1
      let acc3 := acc2 ++ [Ev.wait i]
      run_loop g0 g1 rest (i + 1) true acc3

/-- `run_commands(command_list)`: run the loop from the first stage with
`prev = nullptr`.  The result is `none` when an `isQuit` call crashed,
otherwise the returned `is_quit` flag together with the parent's event
trace. -/
def run_commands (l : List Process) (g0 g1 : Int) : Option (Bool × List Ev) :=
  run_loop g0 g1 l 0 false []

/-- Modelled from the spec: "the first whitespace-delimited token" of a
command string (the spec's definition of what `isTerminationRequest` and
the termination check must inspect).  Used only to state what the spec
demands, for comparison against the source's `isQuit`. -/
def spec_firstToken (s : List Char) : Option (List Char) :=
  let s1 := s.dropWhile (fun c => c == ' ')
  match s1 with
  | [] => none
  | _ :: _ => some (s1.takeWhile (fun c => ! (c == ' ')))

/-- The purely functional content of the source's `isQuit` on a process
whose command is a non-empty C string: the whole command compares equal to
`"quit"`. -/
def isQuitPure (p : Process) : Bool := decide (p.cmd = some quitChars)

/-- The pipe-flag invariant of the spec, relative to an expected pipe-in
value for the first stage: the first stage's `pipe_in` equals `pin`, and
every later stage's `pipe_in` equals the previous stage's `pipe_out`.
`chainFrom false l` states the claim C8 invariant for a whole pipeline. -/
def chainFrom (pin : Bool) : List Process → Bool
  | [] => true
  | p :: rest => (p.pipe_in == pin) && chainFrom p.pipe_out rest

/-- Recognizer for pipe-creation events in a trace. -/
def isPipeCreate : Ev → Bool
  | Ev.pipeCreate _ _ _ => true
  | _ => false

/-- Number of pipe-connected adjacent pairs of a pipeline: adjacencies
whose earlier stage has `pipe_out` set. -/
def pipeConnectedPairs : List Process → Nat
  | p :: q :: rest => (if p.pipe_out then 1 else 0) + pipeConnectedPairs (q :: rest)
  | _ => 0

/-- The input line `"a | b | c"`. -/
def abcChars : List Char := ['a', ' ', '|', ' ', 'b', ' ', '|', ' ', 'c']

/-- The command string `"quit now"`. -/
def quitNowChars : List Char := ['q', 'u', 'i', 't', ' ', 'n', 'o', 'w']

/-- A one-stage pipeline for the command `ls`, no pipes. -/
def lsProc : Process := Process.mkC ['l', 's'] false false

/-- A two-stage pipe-connected pipeline, `ls` piped into `wc`. -/
def pipePair : List Process :=
  [Process.mkC ['l', 's'] false true, Process.mkC ['w', 'c'] true false]

/-- A three-stage line whose middle stage is `quit`. -/
def quitMidList : List Process :=
  [Process.mkC ['l', 's'] false false, Process.mkC quitChars false false,
   Process.mkC ['w', 'c'] false false]

/-- C1: the claim says `parse_input "a | b | c"` produces three stages with
pipe flags (false,true), (true,true), (true,false).  The code instead
pushes a single stage `"a "` with flags (false,false) — the peeked
remainder `" c"` does not begin with `'|'` — and then crashes on the next
iteration dereferencing the NULL returned by `strtok(NULL, "")` (crash
flag `true`). -/
theorem parse_input_abc_eval :
    parse_input abcChars = ([Process.mkC ['a', ' '] false false], true) := by decide

/-- C2: the claim says `parse_input` terminates normally on every line and
its peek never dereferences a null pointer.  Already on the one-token line
`"a"` the peek `strtok(NULL, "")` returns NULL (the save pointer is at the
terminating NUL) and the code dereferences it: the run ends in the crash
state with no stage produced. -/
theorem parse_input_single_token_crashes :
    parse_input ['a'] = ([], true) := by decide

/-- C3: the claim says `isQuit` is true when the first whitespace-delimited
token is `"quit"`, so `"quit now"` must give true.  The source calls
`strtok(p->cmd, "")` with an empty delimiter set, which returns the entire
command string, so `"quit now"` is compared whole against `"quit"` and
`isQuit` returns false. -/
theorem isQuit_quit_now_eval :
    spec_firstToken quitNowChars = some quitChars ∧
    (isQuit (some (Process.mkC quitNowChars false false))).1 = some false := by decide

/-- C4: the claim says `Process::split_string` splits the command into
whitespace tokens stored in `cmdTokens` with a null sentinel.  The method
body in the source is empty: it changes nothing, and `cmdTokens` stays
uninitialized (`none`) even after calling it on a freshly constructed
process. -/
theorem split_string_is_noop :
    (∀ p : Process, p.split_string = p) ∧
    (Process.mkC ['l', 's'] false false).split_string.cmdTokens = none :=
  ⟨fun _ => rfl, rfl⟩

/-- C5: the claim says every pipe descriptor created during a run of
`run_commands` is closed exactly once in the parent.  For the one-stage
pipeline `ls` the parent creates the pipe descriptors 3 and 4 and executes
no `close` at all (with `prev` null the close branch is skipped and
`prev_fd` is never assigned from `fd` anyway), whatever the stack garbage
`g0`, `g1` in `prev_fd` is: each created descriptor is closed zero times,
not once. -/
theorem run_commands_leaks_pipe_fds (g0 g1 : Int) :
    run_commands [lsProc] g0 g1 =
      some (false, [Ev.fork 0, Ev.pipeCreate 0 3 4, Ev.wait 0]) ∧
    List.count (Ev.closeFd 3) [Ev.fork 0, Ev.pipeCreate 0 3 4, Ev.wait 0] = 0 ∧
    List.count (Ev.closeFd 4) [Ev.fork 0, Ev.pipeCreate 0 3 4, Ev.wait 0] = 0 := by
  exact ⟨rfl, by decide, by decide⟩

/-- C6: the claim says the pipe for an adjacency is created once per
pipe-connected pair, before the fork that needs it.  On the two-stage
pipe-connected pipeline `ls | wc` the parent's trace shows: `fork` of
stage 0 strictly precedes the first `pipe()` call, and two pipes are
created for the single pipe-connected adjacency — `pipe(fd)` is called
after `fork()` in every iteration. -/
theorem run_commands_forks_before_pipe :
    run_commands pipePair 7 9 =
      some (false, [Ev.fork 0, Ev.pipeCreate 0 3 4, Ev.wait 0,
        Ev.fork 1, Ev.pipeCreate 1 5 6, Ev.closeFd 7, Ev.closeFd 9, Ev.wait 1]) ∧
    List.indexOf (Ev.fork 0) [Ev.fork 0, Ev.pipeCreate 0 3 4, Ev.wait 0,
        Ev.fork 1, Ev.pipeCreate 1 5 6, Ev.closeFd 7, Ev.closeFd 9, Ev.wait 1] <
      List.indexOf (Ev.pipeCreate 0 3 4) [Ev.fork 0, Ev.pipeCreate 0 3 4, Ev.wait 0,
        Ev.fork 1, Ev.pipeCreate 1 5 6, Ev.closeFd 7, Ev.closeFd 9, Ev.wait 1] ∧
    pipeConnectedPairs pipePair = 1 ∧
    List.countP isPipeCreate [Ev.fork 0, Ev.pipeCreate 0 3 4, Ev.wait 0,
        Ev.fork 1, Ev.pipeCreate 1 5 6, Ev.closeFd 7, Ev.closeFd 9, Ev.wait 1] = 2 := by
  exact ⟨rfl, by decide, by decide, by decide⟩

/-- C9: the claim says `isQuit` returns false without crashing on a null
process, a null command string, and an empty command string.  The null
cases are handled by the guard, but on the empty (non-null) command string
`strtok(p->cmd, "")` returns NULL and the code passes it straight to
`strcmp`: a null-pointer dereference, modelled by result `none`. -/
theorem isQuit_empty_cmd_crashes :
    (isQuit none).1 = some false ∧
    (isQuit (some (Process.mk none none false false))).1 = some false ∧
    (isQuit (some (Process.mkC [] false false))).1 = none := by decide

/-! Helper lemmas about the strtok model with an empty delimiter set, as
used by `isQuit`. -/

theorem isDelim_nil (c : Char) : isDelim [] c = false := rfl

theorem dropWhile_isDelim_nil (l : List Char) : l.dropWhile (isDelim []) = l := by
  cases l with
  | nil => rfl
  | cons a t => rfl

theorem takeWhile_not_isDelim_nil (l : List Char) :
    l.takeWhile (fun c => ! isDelim [] c) = l :=
  List.takeWhile_eq_self_iff.mpr (fun _ _ => rfl)

theorem dropWhile_not_isDelim_nil (l : List Char) :
    l.dropWhile (fun c => ! isDelim [] c) = [] :=
  List.dropWhile_eq_nil_iff.mpr (fun _ _ => rfl)

theorem strtok_first_nil_eq (a : Char) (t : List Char) :
    strtok_first [] (a :: t) = (some (a :: t), a :: t) := by
  simp only [strtok_first, dropWhile_isDelim_nil, takeWhile_not_isDelim_nil,
    dropWhile_not_isDelim_nil]

/-- C10: `isQuit` never changes the process it inspects: the `strtok`
call it performs uses an empty delimiter set, so it finds no delimiter to
overwrite with NUL, and no other write to the process occurs on any path
(including the path that later crashes in `strcmp`). -/
theorem isQuit_preserves_process (p : Process) : (isQuit (some p)).2 = some p := by
  cases p with
  | mk c tks pin pout =>
    cases c with
    | none => rfl
    | some s =>
      cases s with
      | nil => rfl
      | cons a t => simp only [isQuit, strtok_first_nil_eq]

/-- On a process whose command string is not the empty string, `isQuit`
returns normally and its boolean is the whole-string comparison
`isQuitPure`. -/
theorem isQuit_fst_of_ne_empty (p : Process) (h : p.cmd ≠ some ([] : List Char)) :
    (isQuit (some p)).1 = some (isQuitPure p) := by
  cases p with
  | mk c tks pin pout =>
    cases c with
    | none => rfl
    | some s =>
      cases s with
      | nil => exact absurd rfl h
      | cons a t =>
        simp only [isQuit, strtok_first_nil_eq, isQuitPure]
        simp

/-! The pipe-flag invariant of `parse_input` (claim C8). -/

theorem map_split_string (l : List Process) : l.map Process.split_string = l := by
  induction l with
  | nil => rfl
  | cons p t ih => simp [Process.split_string, ih]

theorem parse_loop_append (fuel : Nat) :
    ∀ (token rem : List Char) (pin : Bool) (acc : List Process),
    ∃ tail, (parse_loop fuel token rem pin acc).1 = acc ++ tail ∧
      chainFrom pin tail = true := by
  induction fuel with
  | zero =>
    intro token rem pin acc
    exact ⟨[], by simp [parse_loop], rfl⟩
  | succ n ih =>
    intro token rem pin acc
    cases hpk : (strtok_step [] (strtok_step pipeDelims rem).2).1 with
    | none =>
      refine ⟨[], ?_, rfl⟩
      simp [parse_loop, hpk]
    | some pk =>
      cases hnx : (strtok_step pipeDelims rem).1 with
      | none =>
        refine ⟨[Process.mkC token pin false], ?_, ?_⟩
        · simp [parse_loop, hpk, hnx]
        · simp [chainFrom, Process.mkC]
      | some t =>
        have hstep : parse_loop (Nat.succ n) token rem pin acc =
            parse_loop n t (strtok_step [] (strtok_step pipeDelims rem).2).2
              (pk.headD ' ' == '|')
              (acc ++ [Process.mkC token pin (pk.headD ' ' == '|')]) := by
          simp [parse_loop, hpk, hnx]
        obtain ⟨tail, ht, hc⟩ := ih t (strtok_step [] (strtok_step pipeDelims rem).2).2
          (pk.headD ' ' == '|') (acc ++ [Process.mkC token pin (pk.headD ' ' == '|')])
        refine ⟨Process.mkC token pin (pk.headD ' ' == '|') :: tail, ?_, ?_⟩
        · rw [hstep, ht]; simp
        · simpa [chainFrom, Process.mkC] using hc

/-- C8: every pipeline `parse_input` builds satisfies the flag invariant:
the first stage has `pipe_in = false` and each later stage's `pipe_in`
equals the previous stage's `pipe_out` — the loop threads
`pipe_in_val := pipe_out_val` from one pushed process to the next.  This
holds for the accumulated list even on the (typical) runs in which the
loop crashes before finishing. -/
theorem parse_input_flags_invariant (cmd : List Char) :
    chainFrom false (parse_input cmd).1 = true := by
  simp only [parse_input]
  cases htk : (strtok_step pipeDelims cmd).1 with
  | none => rfl
  | some tok =>
    obtain ⟨tail, ht, hc⟩ :=
      parse_loop_append (cmd.length + 2) tok (strtok_step pipeDelims cmd).2 false []
    by_cases hcrash : (parse_loop (cmd.length + 2) tok (strtok_step pipeDelims cmd).2 false []).2
    · simpa [hcrash, ht] using hc
    · simp only [hcrash, if_neg]
      simpa [hcrash, map_split_string, ht] using hc

/-! The quit handling of `run_commands` (claim C7). -/

theorem exists_shift (i j k : Nat) :
    (∃ m, m < k + 1 ∧ j = i + m) ↔ (j = i ∨ ∃ m, m < k ∧ j = i + 1 + m) := by
  constructor
  · rintro ⟨m, hm, rfl⟩
    cases m with
    | zero => exact Or.inl rfl
    | succ m => exact Or.inr ⟨m, by omega, by omega⟩
  · rintro (rfl | ⟨m, hm, rfl⟩)
    · exact ⟨0, by omega, rfl⟩
    · exact ⟨m + 1, by omega, by omega⟩

theorem run_loop_spec (g0 g1 : Int) :
    ∀ (l : List Process) (i : Nat) (prevSet : Bool) (acc : List Ev),
    (∀ p ∈ l, p.cmd ≠ some ([] : List Char)) →
    ∃ evs, run_loop g0 g1 l i prevSet acc = some (l.any isQuitPure, evs) ∧
      ∀ j, (Ev.fork j ∈ evs ↔ (Ev.fork j ∈ acc ∨
        ∃ m, m < (l.takeWhile (fun p => ! isQuitPure p)).length ∧ j = i + m)) := by
  intro l
  induction l with
  | nil =>
    intro i prevSet acc h
    exact ⟨acc, rfl, fun j => by simp⟩
  | cons p rest ih =>
    intro i prevSet acc h
    have hp := isQuit_fst_of_ne_empty p (h p (by simp))
    cases hq : isQuitPure p with
    | true =>
      refine ⟨acc, ?_, fun j => ?_⟩
      · simp [run_loop, hp, hq]
      · simp [hq]
    | false =>
      have hrest : ∀ q ∈ rest, q.cmd ≠ some ([] : List Char) :=
        fun q hq2 => h q (by simp [hq2])
      obtain ⟨evs, he, hf⟩ := ih (i + 1) true
        ((if prevSet then
            acc ++ [Ev.fork i, Ev.pipeCreate i (3 + 2 * (i : Int)) (4 + 2 * (i : Int))] ++
              [Ev.closeFd g0, Ev.closeFd g1]
          else acc ++ [Ev.fork i, Ev.pipeCreate i (3 + 2 * (i : Int)) (4 + 2 * (i : Int))]) ++
          [Ev.wait i]) hrest
      refine ⟨evs, ?_, fun j => ?_⟩
      · have hany : (p :: rest).any isQuitPure = rest.any isQuitPure := by simp [hq]
        rw [hany, ← he]
        simp [run_loop, hp, hq]
      · rw [hf j, List.takeWhile_cons]
        cases prevSet <;> simp [hq, exists_shift i j] <;> tauto

/-- C7 counterexample: the claim defines a termination request as a stage
whose first token is the termination keyword, so the stage `"quit now"` is
one; the claim then requires `run_commands` to return true and not to
spawn a process for it.  The code returns false and forks the stage. -/
theorem run_commands_quit_now_counterexample :
    spec_firstToken quitNowChars = some quitChars ∧
    run_commands [Process.mkC quitNowChars false false] 7 9 =
      some (false, [Ev.fork 0, Ev.pipeCreate 0 3 4, Ev.wait 0]) := by decide

/-- C7 amended: a termination request is a stage whose entire command
string is `"quit"` (the source's `isQuit` comparison).  Provided no stage
has an empty command string (on which `isQuit` crashes), `run_commands`
returns true iff such a stage occurs in the list, and the stages forked
are exactly those strictly before the first such stage: none for the
quit stage itself and none after it. -/
theorem run_commands_quit_spec (l : List Process) (g0 g1 : Int)
    (h : ∀ p ∈ l, p.cmd ≠ some ([] : List Char)) :
    ∃ evs, run_commands l g0 g1 = some (l.any isQuitPure, evs) ∧
      ∀ j, (Ev.fork j ∈ evs ↔ j < (l.takeWhile (fun p => ! isQuitPure p)).length) := by
  obtain ⟨evs, he, hf⟩ := run_loop_spec g0 g1 l 0 false [] h
  refine ⟨evs, he, fun j => ?_⟩
  rw [hf j]
  constructor
  · rintro (habs | ⟨m, hm, rfl⟩)
    · simp at habs
    · omega
  · intro hj
    exact Or.inr ⟨j, hj, by omega⟩

/-- Witness for `run_commands_quit_spec` on the concrete line
`ls ; quit ; wc`: the hypothesis holds, the run returns true, and exactly
the stage before the quit is forked. -/
theorem run_commands_quit_spec_witness :
    (∀ p ∈ quitMidList, p.cmd ≠ some ([] : List Char)) ∧
    (∃ evs, run_commands quitMidList 7 9 = some (quitMidList.any isQuitPure, evs) ∧
      ∀ j, (Ev.fork j ∈ evs ↔
        j < (quitMidList.takeWhile (fun p => ! isQuitPure p)).length)) :=
  ⟨by decide, run_commands_quit_spec quitMidList 7 9 (by decide)⟩

end Tsh
